import Mathlib

/-
Shallow embedding of the core of `py-project-updater` (subproject discovery,
version modeling, repository reconciliation, dry-run aggregation / conflict
analysis) together with theorems settling the frozen claims about it.

Conventions of the embedding:
* Python strings are Lean `String`s.  The Python string primitives the source
  uses (`strip`, `split`, `lower`, `startswith`, `endswith`, `in`) are
  re-implemented below over `List Char` by structural recursion, so that every
  definition evaluates inside the kernel; they follow CPython semantics on the
  ASCII strings the program manipulates.
* The injected command-execution capability (`subprocess.run`) is modelled as a
  record of the exit codes / captured output the external tool would return
  (`StatusWorld`, `GitWorld`, `PipOutcome`); each embedded operation
  additionally returns the trace of external commands it issues, so "no
  command is executed" is a statement about that trace.
* `pathlib` paths are lists of path segments (`Path('/a/b').parts` without the
  anchor); `Path.relative_to(root)` applied to the root itself has empty
  `parts`, as in CPython.
-/

namespace PPU

/-! ## String utilities mirroring the Python primitives used by the source -/

/-- The characters Python `str.strip()` (and `str.split()`) treat as
whitespace, restricted to ASCII. -/
def isSpaceChar (c : Char) : Bool :=
  c = ' ' || c = '\t' || c = '\n' || c = '\r' || c = '\x0b' || c = '\x0c'

/-- Python `s.strip()` on a character list. -/
def trimChars (cs : List Char) : List Char :=
  ((cs.dropWhile isSpaceChar).reverse.dropWhile isSpaceChar).reverse

/-- Python `s.strip()`. -/
def pyStrip (s : String) : String := String.mk (trimChars s.data)

/-- Predicate `listStarts cs tok`: `tok` is an initial run of `cs`
(Python `cs.startswith(tok)` on explicit character lists). -/
def listStarts : List Char → List Char → Bool
  | _, [] => true
  | [], _ :: _ => false
  | a :: as, b :: bs => a = b && listStarts as bs

/-- Python `s.startswith(tok)`. -/
def strStarts (s tok : String) : Bool := listStarts s.data tok.data

/-- Python `s.endswith(tok)`. -/
def strEnds (s tok : String) : Bool := listStarts s.data.reverse tok.data.reverse

/-- Predicate `listHasSub need hay`: `need` occurs contiguously inside `hay`
(Python `need in hay`). -/
def listHasSub (need : List Char) : List Char → Bool
  | [] => listStarts [] need
  | c :: t => listStarts (c :: t) need || listHasSub need t

/-- Python `need in hay` substring test. -/
def strContains (hay need : String) : Bool :=
  listHasSub need.data hay.data

/-- Python `s.rstrip("/")`. -/
def rstripSlash (s : String) : String :=
  String.mk ((s.data.reverse.dropWhile (fun c => c = '/')).reverse)

/-- ASCII lowering of one character (Python `str.lower`, ASCII fragment). -/
def asciiLowerChar (c : Char) : Char :=
  if 'A' ≤ c && c ≤ 'Z' then Char.ofNat (c.toNat + 32) else c

/-- Python `s.lower()` (ASCII fragment). -/
def strLower (s : String) : String := String.mk (s.data.map asciiLowerChar)

/-- Helper for `splitOnChar`: `acc` holds the current piece reversed. -/
def splitOnCharAux (sep : Char) : List Char → List Char → List String
  | acc, [] => [String.mk acc.reverse]
  | acc, c :: t =>
    if c = sep then String.mk acc.reverse :: splitOnCharAux sep [] t
    else splitOnCharAux sep (c :: acc) t

/-- Python `s.split(sep)` for a one-character separator: every occurrence
separates two (possibly empty) pieces; `"".split(sep) == [""]`. -/
def splitOnChar (s : String) (sep : Char) : List String :=
  splitOnCharAux sep [] s.data

/-- Helper for `splitWhitespace`. -/
def splitPredAux (p : Char → Bool) : List Char → List Char → List String
  | acc, [] => [String.mk acc.reverse]
  | acc, c :: t =>
    if p c then String.mk acc.reverse :: splitPredAux p [] t
    else splitPredAux p (c :: acc) t

/-- Python `s.split()` (split on whitespace, dropping empty pieces). -/
def splitWhitespace (s : String) : List String :=
  (splitPredAux isSpaceChar [] s.data).filter (fun piece => piece ≠ "")

/-- Python `s.split(tok, 1)` when `tok` occurs in `s`: split at the first
occurrence of `tok`; `none` when `tok` does not occur.  Character-list core. -/
def splitCharsFirst (tok : List Char) : List Char → Option (List Char × List Char)
  | [] => if listStarts [] tok then some ([], []) else none
  | c :: t =>
    if listStarts (c :: t) tok then some ([], (c :: t).drop tok.length)
    else
      match splitCharsFirst tok t with
      | some (a, b) => some (c :: a, b)
      | none => none

/-- Python `s.split(tok, 1)` packaged on `String`, `none` when `tok ∉ s`. -/
def splitOnFirst (s tok : String) : Option (String × String) :=
  match splitCharsFirst tok.data s.data with
  | some (a, b) => some (String.mk a, String.mk b)
  | none => none

/-! ## GitManager (services/git.py) -/

/-- Embeds `GitManager.PYTHON_IGNORE_PATTERNS`, verbatim. -/
def PYTHON_IGNORE_PATTERNS : List String :=
  ["*.pyc", "*.pyo", "*.pyd", "__pycache__/", "*.so", "*.egg-info/",
   ".pytest_cache/", ".mypy_cache/", ".coverage", "htmlcov/", ".tox/",
   ".eggs/", "build/", "dist/", "*.egg"]

/-- Embeds `GitManager._is_ignored_change(status_line)`: the pattern loop tests
`filename.endswith(pattern.rstrip("/")) or (pattern.endswith("/") and
filename.startswith(pattern))`, the `*` of a file pattern being a literal
character of the `endswith` probe. -/
def isIgnoredChange (statusLine : String) : Bool :=
  let cs := statusLine.data
  if cs.length < 3 then false
  else
    let indexStatus := cs.getD 0 ' '
    let workingStatus := cs.getD 1 ' '
    let filename := String.mk (trimChars (cs.drop 3))
    if workingStatus = '?' || workingStatus = 'M' ||
        indexStatus = 'M' || indexStatus = 'A' then
      PYTHON_IGNORE_PATTERNS.any (fun pattern =>
        strEnds filename (rstripSlash pattern) ||
        (strEnds pattern "/" && strStarts filename pattern))
    else false

/-- External git commands the reconciler can issue (the injected
command-execution capability, per invocation site in `git.py`). -/
inductive GitCmd
  | statusPorcelain
  | cherry
  | pull
  | fetch
  | checkoutDot
  | lsFiles
  deriving DecidableEq, BEq, Repr

/-- What one `git status --porcelain` / `git cherry -v` round would return:
the exit code and captured stdout of `git status --porcelain`, and the
captured stdout of `git cherry -v`. -/
structure StatusWorld where
  statusExit : Int
  statusOut : String
  cherryOut : String

/-- The `(is_clean, status_message, was_cleaned_by_filtering)` triple of
`GitManager.get_git_status`. -/
structure StatusResult where
  cleanFlag : Bool
  message : String
  wasCleanedByFiltering : Bool
  deriving DecidableEq, Repr

/-- Embeds `GitManager.get_git_status(path)` over a `StatusWorld`, also returning the
trace of commands issued (`git cherry -v` runs only when no relevant change
remains). -/
def getGitStatus (w : StatusWorld) : StatusResult × List GitCmd :=
  if w.statusExit ≠ 0 then
    (⟨false, "Failed to get Git status", false⟩, [GitCmd.statusPorcelain])
  else
    let rawStatusLines := splitOnChar (pyStrip w.statusOut) '\n'
    let relevantChanges :=
      rawStatusLines.filter (fun line => line ≠ "" && !(isIgnoredChange line))
    let wasCleanedByFiltering := rawStatusLines.length > relevantChanges.length
    if relevantChanges ≠ [] then
      (⟨false, "Repository has uncommitted changes", wasCleanedByFiltering⟩,
       [GitCmd.statusPorcelain])
    else if pyStrip w.cherryOut ≠ "" then
      (⟨false, "Repository has unpushed commits", wasCleanedByFiltering⟩,
       [GitCmd.statusPorcelain, GitCmd.cherry])
    else
      (⟨true, "Repository is clean", wasCleanedByFiltering⟩,
       [GitCmd.statusPorcelain, GitCmd.cherry])

/-- The spec's three-way classification of `get_git_status`, plus the
status-query-failed case. -/
inductive RepoClass
  | CleanRepo
  | Dirty
  | Ahead
  | StatusFailed
  deriving DecidableEq, Repr

/-- Classification of a repository state, mirroring the branch structure of
`get_git_status`. -/
def classify (w : StatusWorld) : RepoClass :=
  if w.statusExit ≠ 0 then RepoClass.StatusFailed
  else
    let rawStatusLines := splitOnChar (pyStrip w.statusOut) '\n'
    let relevantChanges :=
      rawStatusLines.filter (fun line => line ≠ "" && !(isIgnoredChange line))
    if relevantChanges ≠ [] then RepoClass.Dirty
    else if pyStrip w.cherryOut ≠ "" then RepoClass.Ahead
    else RepoClass.CleanRepo

/-- All external results `update_repository` may consume: the first status
round, the re-check round performed after artifact cleanup, and the pull /
fetch invocations. -/
structure GitWorld where
  first : StatusWorld
  second : StatusWorld
  pullExit : Int
  pullOut : String
  pullErr : String
  fetchExit : Int
  fetchErr : String

/-- The `(success, message)` pair of `GitManager.update_repository`. -/
structure UpdateResult where
  success : Bool
  message : String
  deriving DecidableEq, Repr

/-- Embeds `GitManager.update_repository(path)` over a `GitWorld`, also returning the
trace of issued commands.  Note that the initial `get_git_status` call (and the
commands it issues) precedes the `self.test_mode.enabled` branch, exactly as in
the source; in the test-mode branch the reported would-be operation is `pull`
iff the repository is currently clean.  `_clean_python_artifacts` contributes
`git checkout -- .` and `git ls-files` to the trace (its `rglob`-driven
deletions are filesystem work, not commands). -/
def updateRepository (testMode : Bool) (w : GitWorld) : UpdateResult × List GitCmd :=
  let st := (getGitStatus w.first).1
  let trace1 := (getGitStatus w.first).2
  if testMode then
    if !st.cleanFlag || !(strContains (strLower st.message) "up to date") then
      let operation := if st.cleanFlag then "pull" else "fetch"
      (⟨true, "Would " ++ operation ++ " changes"⟩, trace1)
    else
      (⟨true, "Repository up to date"⟩, trace1)
  else
    if st.cleanFlag then
      let cleanupTrace :=
        if st.wasCleanedByFiltering then [GitCmd.checkoutDot, GitCmd.lsFiles]
        else []
      let st2 := (getGitStatus w.second).1
      let trace2 := (getGitStatus w.second).2
      if !st2.cleanFlag then
        (⟨false, "Repository not clean: " ++ st2.message⟩,
         trace1 ++ cleanupTrace ++ trace2)
      else if w.pullExit = 0 then
        let changes := pyStrip w.pullOut
        if changes ≠ "" then
          (⟨true, "Pulled changes: " ++ changes⟩,
           trace1 ++ cleanupTrace ++ trace2 ++ [GitCmd.pull])
        else
          (⟨true, "Repository up to date"⟩,
           trace1 ++ cleanupTrace ++ trace2 ++ [GitCmd.pull])
      else
        (⟨false, "Failed to pull changes: " ++ pyStrip w.pullErr⟩,
         trace1 ++ cleanupTrace ++ trace2 ++ [GitCmd.pull])
    else if w.fetchExit = 0 then
      (⟨true, "Fetched changes (repository not clean)"⟩, trace1 ++ [GitCmd.fetch])
    else
      (⟨false, "Failed to fetch changes: " ++ pyStrip w.fetchErr⟩,
       trace1 ++ [GitCmd.fetch])

/-! ## Spec-modelled matcher for claim C4 -/

/-- Modelled from the spec: claim C4's matching rule for ignore patterns —
suffix match for file patterns (so `*.pyc` matches any filename ending in
`.pyc`), prefix match for directory patterns (those ending in `/`). -/
def specPatternMatch (filename pattern : String) : Bool :=
  if strEnds pattern "/" then strStarts filename pattern
  else if strStarts pattern "*" then strEnds filename (String.mk (pattern.data.drop 1))
  else strEnds filename pattern

/-- Modelled from the spec: claim C4's reading of `_is_ignored_change` — the
same status-character gating as the code (working-tree `?`/`M` or index
`M`/`A`), with the spec's suffix/prefix pattern matching. -/
def specIsIgnorable (statusLine : String) : Bool :=
  let cs := statusLine.data
  if cs.length < 3 then false
  else
    let indexStatus := cs.getD 0 ' '
    let workingStatus := cs.getD 1 ' '
    let filename := String.mk (trimChars (cs.drop 3))
    if workingStatus = '?' || workingStatus = 'M' ||
        indexStatus = 'M' || indexStatus = 'A' then
      PYTHON_IGNORE_PATTERNS.any (specPatternMatch filename)
    else false

/-! ## PipInstaller (services/pip_installer.py) -/

/-- Outcome of one installer subprocess invocation: either it ran — exit code
plus captured stdout/stderr, `result.stderr or ""` read as a plain string — or
`subprocess.run` raised an exception with the given text. -/
inductive PipOutcome
  | ran (exitCode : Int) (stdout stderr : String)
  | raised (exnText : String)

/-- The benign stderr substrings of `PipInstaller.install_package`, verbatim
(they are matched against the lowercased stderr). -/
def BENIGN_STDERR : List String :=
  ["already satisfied", "requirement already satisfied", "dependency conflict",
   "conflicting dependencies", "version conflict", "incompatible dependencies"]

/-- Python `any(w in stderr for w in [...])` over the lowercased stderr. -/
def stderrIsBenign (stderr : String) : Bool :=
  BENIGN_STDERR.any (fun word => strContains (strLower stderr) word)

/-- Embeds `PipInstaller.install_package(package, version, env_path)`: the
`(success, error_message)` pair.  In test mode it logs and returns
`(True, None)` before any subprocess invocation; otherwise exit 0 or a benign
stderr is success, any other failure returns the stripped stderr, and the
`except` clause converts a raised exception into `(False, str(e))`. -/
def installPackage (testMode : Bool) (package : String) (version : Option String)
    (outcome : PipOutcome) : Bool × Option String :=
  if testMode then (true, none)
  else
    match outcome with
    | .raised e => (false, some e)
    | .ran code _ err =>
      if code = 0 then (true, none)
      else if stderrIsBenign err then (true, none)
      else (false, some (pyStrip err))

/-! ## Version model (models/version.py) over a modelled `packaging.version` -/

/-- One decimal digit. -/
def digitVal? (c : Char) : Option Nat :=
  if '0' ≤ c && c ≤ '9' then some (c.toNat - '0'.toNat) else none

/-- A non-empty all-digit numeral, as `packaging` reads one release
component. -/
def strToNat? (s : String) : Option Nat :=
  if s.data = [] then none
  else
    s.data.foldl
      (fun acc c =>
        match acc, digitVal? c with
        | some n, some d => some (n * 10 + d)
        | _, _ => none)
      (some 0)

/-- Modelled from the spec: the version parser of the external
`packaging.version` library (not part of this repository), restricted to the
plain dotted numeric release versions the program's manifests carry
("1", "2.0", "2.1.0", ...).  A release is its list of numeric components;
any other shape fails to parse, and §4.1 requires a failed parse to make
every compatibility query return false. -/
def parseVersion (s : String) : Option (List Nat) :=
  (splitOnChar s '.').mapM strToNat?

/-- All components zero (a release padded with zeros compares equal). -/
def allZero (l : List Nat) : Bool := l.all (fun n => n = 0)

/-- Modelled from the spec: `packaging`'s ordering on parsed releases —
componentwise, missing components reading as zero (`1.0 == 1.0.0`). -/
def vcmp : List Nat → List Nat → Ordering
  | [], bs => if allZero bs then Ordering.eq else Ordering.lt
  | a :: as, [] => if a = 0 && allZero as then Ordering.eq else Ordering.gt
  | a :: as, b :: bs =>
    if a < b then Ordering.lt
    else if b < a then Ordering.gt
    else vcmp as bs

/-- Models `packaging`'s `Version.major`: first release component, 0 when absent. -/
def vmajor (l : List Nat) : Nat := l.getD 0 0

/-- Embeds `VersionSpecifier`, the seven operator kinds in declaration order. -/
inductive VersionSpecifier
  | EXACT
  | GREATER_EQUAL
  | LESS_EQUAL
  | GREATER
  | LESS
  | COMPATIBLE
  | NOT_EQUAL
  deriving DecidableEq, Repr

/-- Embeds `VersionSpecifier.value`. -/
def specValue : VersionSpecifier → String
  | .EXACT => "=="
  | .GREATER_EQUAL => ">="
  | .LESS_EQUAL => "<="
  | .GREATER => ">"
  | .LESS => "<"
  | .COMPATIBLE => "~="
  | .NOT_EQUAL => "!="

/-- Embeds `Version`: a specifier plus a version string. -/
structure Version where
  specifier : VersionSpecifier
  version : String
  deriving DecidableEq, Repr

/-- Embeds `Version.__str__`: `f"{self.specifier.value}{self.version}"`. -/
def versionStr (v : Version) : String := specValue v.specifier ++ v.version

/-- Embeds `Version.is_compatible_with(other_version)`: parse both sides, apply the
operator; `~=` means `current ≤ other < (current.major + 1).0.0`; a parse
failure on either side returns false instead of raising. -/
def isCompatibleWith (self : Version) (otherVersion : String) : Bool :=
  match parseVersion self.version, parseVersion otherVersion with
  | some current, some other =>
    match self.specifier with
    | .EXACT => vcmp other current = Ordering.eq
    | .GREATER_EQUAL => vcmp other current ≠ Ordering.lt
    | .LESS_EQUAL => vcmp other current ≠ Ordering.gt
    | .GREATER => vcmp other current = Ordering.gt
    | .LESS => vcmp other current = Ordering.lt
    | .COMPATIBLE =>
      (vcmp other current ≠ Ordering.lt) &&
        (vcmp other [vmajor current + 1, 0, 0] = Ordering.lt)
    | .NOT_EQUAL => vcmp other current ≠ Ordering.eq
  | _, _ => false

/-- Embeds `Package`: a name plus an optional version constraint. -/
structure Package where
  name : String
  version : Option Version := none
  deriving DecidableEq, Repr

/-- Embeds `VersionComparator.compare_versions(main_package, sub_package)`: false if
either side lacks a constraint; when the main (reference) specifier is `==`,
the *candidate's* constraint is applied to the *reference's* version string;
otherwise the reference's constraint is applied to the candidate's version
string.  (The surrounding `except InvalidVersion` is unreachable because
`is_compatible_with` already converts parse failures to `False`.) -/
def compareVersions (mainPackage subPackage : Package) : Bool :=
  match mainPackage.version, subPackage.version with
  | some mainV, some subV =>
    if mainV.specifier = VersionSpecifier.EXACT then
      !(isCompatibleWith subV mainV.version)
    else
      !(isCompatibleWith mainV subV.version)
  | _, _ => false

/-- The reading claim C5 gives of `differsSignificantly`: in the equals case
it is the *candidate's version* that must be compatible with the *reference's*
exact-version constraint, i.e. the reference's constraint is applied to the
candidate's version in both branches. -/
def compareVersionsClaim (mainPackage subPackage : Package) : Bool :=
  match mainPackage.version, subPackage.version with
  | some mainV, some subV =>
    if mainV.specifier = VersionSpecifier.EXACT then
      !(isCompatibleWith mainV subV.version)
    else
      !(isCompatibleWith mainV subV.version)
  | _, _ => false

/-! ## Package parsing (models/package.py) -/

/-- The seven specifiers in `VersionSpecifier` declaration order — the
priority order `Package.from_string` scans. -/
def SPEC_ORDER : List VersionSpecifier :=
  [.EXACT, .GREATER_EQUAL, .LESS_EQUAL, .GREATER, .LESS, .COMPATIBLE, .NOT_EQUAL]

/-- Embeds `Package.from_string(package_str)`: if none of the seven operator tokens
occurs, the whole stripped line is the name; otherwise the first specifier in
declaration order whose token occurs wins, and the line is split on the first
occurrence of that token into stripped name and stripped version.  (The final
fallback arm is unreachable: the winning specifier's token does occur.) -/
def packageFromString (packageString : String) : Package :=
  if !(strContains packageString "==") && !(strContains packageString ">=") &&
      !(strContains packageString "<=") && !(strContains packageString ">") &&
      !(strContains packageString "<") && !(strContains packageString "~=") &&
      !(strContains packageString "!=") then
    { name := pyStrip packageString }
  else
    match SPEC_ORDER.filter (fun s => strContains packageString (specValue s)) with
    | [] => { name := pyStrip packageString }
    | specifier :: _ =>
      match splitOnFirst packageString (specValue specifier) with
      | some (n, v) =>
        { name := pyStrip n, version := some ⟨specifier, pyStrip v⟩ }
      | none => { name := pyStrip packageString }

/-- Embeds `Package.__str__`: `f"{self.name}{self.version}"` when a constraint is
present, else the bare name. -/
def packageToString (p : Package) : String :=
  match p.version with
  | some v => p.name ++ versionStr v
  | none => p.name

/-! ## Dry-run recorder and conflict analysis (reporting/test_mode.py) -/

/-- Embeds `OperationResult` (models/subproject.py): one recorded operation. -/
structure OperationResult where
  success : Bool
  message : String
  command : Option String := none
  changes : List String := []
  projectName : Option String := none

/-- Python-dict lookup on an insertion-ordered association list
(`d[k]` / `k in d`). -/
def getA {α : Type} : List (String × α) → String → Option α
  | [], _ => none
  | (k, v) :: t, key => if k = key then some v else getA t key

/-- Python-dict update on an insertion-ordered association list
(`d[k] = v`: overwriting keeps the key's position, a new key is appended). -/
def setA {α : Type} : List (String × α) → String → α → List (String × α)
  | [], key, v => [(key, v)]
  | (k, v') :: t, key, v =>
    if k = key then (k, v) :: t else (k, v') :: setA t key v

/-- The install-record extraction step of `_analyze_package_conflicts`: a
record qualifies when it succeeded, carries a truthy project name and its
lowercased message contains "installed" and a second whitespace-separated
word; that word is split on the first `==` into name and version, the version
reading "any" when no `==` occurs. -/
def extractInstall (op : OperationResult) : Option (String × String × String) :=
  match op.projectName with
  | none => none
  | some proj =>
    if proj ≠ "" && op.success && strContains (strLower op.message) "installed" then
      match (splitWhitespace op.message).get? 1 with
      | some packageSpec =>
        match splitOnFirst packageSpec "==" with
        | some (package, version) => some (package, proj, version)
        | none => some (packageSpec, proj, "any")
      | none => none
    else none

/-- Accumulator recursion for `package_versions`: fold the operations in
order, upserting `package_versions[package][project] = version`. -/
def buildPVAux :
    List OperationResult → List (String × List (String × String)) →
      List (String × List (String × String))
  | [], acc => acc
  | op :: rest, acc =>
    match extractInstall op with
    | none => buildPVAux rest acc
    | some (package, proj, version) =>
      buildPVAux rest
        (setA acc package (setA ((getA acc package).getD []) proj version))

/-- The `package_versions` dictionary of `_analyze_package_conflicts`:
package name → (project name → version string). -/
def buildPackageVersions (ops : List OperationResult) :
    List (String × List (String × String)) :=
  buildPVAux ops []

/-- The conflict test of `_analyze_package_conflicts`:
`len(versions) > 1 and len(set(versions.values())) > 1`. -/
def isConflictEntry (entries : List (String × String)) : Bool :=
  entries.length > 1 && (entries.map Prod.snd).dedup.length > 1

/-- The `conflicts` dictionary: per qualifying package, every
(project, version) pair in insertion order. -/
def buildConflicts :
    List (String × List (String × String)) →
      List (String × List (String × String))
  | [] => []
  | (package, versions) :: t =>
    if isConflictEntry versions then (package, versions) :: buildConflicts t
    else buildConflicts t

/-- The `unique_packages` dictionary: project → the packages only it
installed, in encounter order (`next(iter(versions.keys()))` reads the single
project of a one-entry dict; the inner dicts `buildPackageVersions` produces
are never empty, so the empty-dict arm is unreachable). -/
def buildUniques :
    List (String × List (String × String)) → List (String × List String) →
      List (String × List String)
  | [], acc => acc
  | (package, versions) :: t, acc =>
    if versions.length > 1 then buildUniques t acc
    else
      match versions with
      | [(proj, _)] =>
        buildUniques t (setA acc proj (((getA acc proj).getD []) ++ [package]))
      | _ => buildUniques t acc

/-- Embeds `TestModeManager._analyze_package_conflicts()`: the
`(conflicts, unique_packages)` pair. -/
def analyzePackageConflicts (ops : List OperationResult) :
    List (String × List (String × String)) × List (String × List String) :=
  (buildConflicts (buildPackageVersions ops),
   buildUniques (buildPackageVersions ops) [])

/-- The spec's own example run for C6: `pkg` at 1.0.0 under A and 2.0.0 under
B, `other` at 1.0.0 under A only. -/
def opsExample : List OperationResult :=
  [⟨true, "Installed pkg==1.0.0", none, [], some "A"⟩,
   ⟨true, "Installed pkg==2.0.0", none, [], some "B"⟩,
   ⟨true, "Installed other==1.0.0", none, [], some "A"⟩]

/-! ## Subproject discovery (services/finder.py) -/

/-- One directory beneath the search root, as discovery sees it: its path
segments (`Path.parts` without the filesystem anchor), whether it holds a
`.git` subdirectory, and whether it holds a `requirements.txt`. -/
structure FSDir where
  parts : List String
  hasGitDir : Bool
  hasRequirements : Bool
  deriving DecidableEq, Repr

/-- The filesystem beneath one root: the root's own segments and the
directories the two `Path.rglob` traversals enumerate, in traversal order;
a directory not listed carries no marker. -/
structure FileSystem where
  rootParts : List String
  dirs : List FSDir
  deriving Repr

/-- Predicate: `a` is an initial run of the segment list `b`. -/
def leadsSegs : List String → List String → Bool
  | [], _ => true
  | _ :: _, [] => false
  | r :: rs, p :: ps => r = p && leadsSegs rs ps

/-- Models `path.relative_to(root).parts` (CPython returns `Path('.')`, whose
`parts` is empty, for the root itself); meaningful when `root` is an initial
run of `parts`. -/
def relParts (root parts : List String) : List String := parts.drop root.length

/-- Embeds `(dir / "requirements.txt").exists() or (dir / ".git").is_dir()` — the
parent-linkage marker test of `_create_subproject`. -/
def dirHasMarker (fs : FileSystem) (parts : List String) : Bool :=
  fs.dirs.any (fun d => d.parts = parts && (d.hasRequirements || d.hasGitDir))

/-- Models `path.parents`: every proper ancestor, nearest first. -/
def parentsOf (parts : List String) : List (List String) :=
  (List.range parts.length).map (fun i => parts.take (parts.length - 1 - i))

/-- The parent-search loop of `_create_subproject`: walk the ancestors,
stopping (without a parent) at the root, otherwise taking the first ancestor
carrying a marker. -/
def findParent (fs : FileSystem) : List (List String) → Option (List String)
  | [] => none
  | parent :: rest =>
    if parent = fs.rootParts then none
    else if dirHasMarker fs parent then some parent
    else findParent fs rest

/-- The discovery-relevant fields of `SubprojectInfo`. -/
structure SubprojectInfo where
  path : List String
  requirementsFilePresent : Bool
  name : String
  depth : Nat
  parentPath : Option (List String)
  isNested : Bool
  deriving DecidableEq, Repr

/-- Embeds `SubprojectFinder._create_subproject(path, root_path, max_depth,
requirements_file)`: `None` when any segment of the path starts with a dot
(note: of `path.parts`, the *full* path, root segments included) or when the
depth relative to the root exceeds `max_depth`; otherwise the populated
record, with the nearest marker-bearing ancestor strictly below the root as
parent. -/
def createSubproject (fs : FileSystem) (parts : List String) (maxDepth : Nat)
    (requirementsFile : Bool) : Option SubprojectInfo :=
  if parts.any (fun part => strStarts part ".") then none
  else
    if (relParts fs.rootParts parts).length > maxDepth then none
    else
      let parentPath := findParent fs (parentsOf parts)
      some
        { path := parts
          requirementsFilePresent := requirementsFile
          name := (parts.getLast?).getD ""
          depth := (relParts fs.rootParts parts).length
          parentPath := parentPath
          isNested := parentPath.isSome }

/-- Pass 1 of `find_subprojects`: every directory holding a `.git`, in
traversal order, skipping already-processed paths; returns the final
processed-path set and the subprojects created. -/
def passGit (fs : FileSystem) (maxDepth : Nat) :
    List FSDir → List (List String) → List (List String) × List SubprojectInfo
  | [], processed => (processed, [])
  | d :: rest, processed =>
    if d.hasGitDir then
      if d.parts ∈ processed then passGit fs maxDepth rest processed
      else
        let res := passGit fs maxDepth rest (d.parts :: processed)
        (res.1,
         (match createSubproject fs d.parts maxDepth d.hasRequirements with
          | some s => [s]
          | none => []) ++ res.2)
    else passGit fs maxDepth rest processed

/-- Pass 2 of `find_subprojects`: every directory holding a
`requirements.txt` not claimed already, in traversal order. -/
def passReq (fs : FileSystem) (maxDepth : Nat) :
    List FSDir → List (List String) → List SubprojectInfo
  | [], _ => []
  | d :: rest, processed =>
    if d.hasRequirements then
      if d.parts ∈ processed then passReq fs maxDepth rest processed
      else
        (match createSubproject fs d.parts maxDepth true with
         | some s => [s]
         | none => []) ++ passReq fs maxDepth rest (d.parts :: processed)
    else passReq fs maxDepth rest processed

/-- Embeds `SubprojectFinder.find_subprojects(root_path, max_depth)`. -/
def findSubprojects (fs : FileSystem) (maxDepth : Nat) : List SubprojectInfo :=
  (passGit fs maxDepth fs.dirs []).2 ++
    passReq fs maxDepth fs.dirs (passGit fs maxDepth fs.dirs []).1

/-- The acceptance predicate claim C7 states: a candidate (a directory with a
version-control directory or a manifest) is returned exactly when no segment
of its path *relative to the root* starts with a dot and its depth does not
exceed `maxDepth`. -/
def claimAccepts (fs : FileSystem) (maxDepth : Nat) (d : FSDir) : Bool :=
  (d.hasGitDir || d.hasRequirements) &&
  !((relParts fs.rootParts d.parts).any (fun part => strStarts part ".")) &&
  ((relParts fs.rootParts d.parts).length ≤ maxDepth)

/-- The filter `_create_subproject` applies: no dot-prefixed segment in the
candidate's *full* path, and depth within bound. -/
def pathOk (fs : FileSystem) (maxDepth : Nat) (parts : List String) : Bool :=
  !(parts.any (fun part => strStarts part ".")) &&
    decide ((relParts fs.rootParts parts).length ≤ maxDepth)

/-- The acceptance predicate the code implements: as `claimAccepts`, except
that the dot test runs over the candidate's *full* path segments, the root's
own segments included. -/
def codeAccepts (fs : FileSystem) (maxDepth : Nat) (d : FSDir) : Bool :=
  (d.hasGitDir || d.hasRequirements) && pathOk fs maxDepth d.parts

/-- A root whose own directory name is dot-prefixed, holding one ordinary
subproject directory with a manifest. -/
def fsHiddenRoot : FileSystem :=
  ⟨[".r"], [⟨[".r", "proj"], false, true⟩]⟩

/-! ## Facts about `get_git_status` used by the update-decision claims -/

theorem getGitStatus_trace (sw : StatusWorld) :
    (getGitStatus sw).2 = [GitCmd.statusPorcelain] ∨
    (getGitStatus sw).2 = [GitCmd.statusPorcelain, GitCmd.cherry] := by
  unfold getGitStatus
  dsimp only
  split_ifs <;> simp

theorem pull_not_mem_status_trace (sw : StatusWorld) :
    GitCmd.pull ∉ (getGitStatus sw).2 := by
  rcases getGitStatus_trace sw with h | h <;> rw [h] <;> simp

theorem checkout_not_mem_status_trace (sw : StatusWorld) :
    GitCmd.checkoutDot ∉ (getGitStatus sw).2 := by
  rcases getGitStatus_trace sw with h | h <;> rw [h] <;> simp

theorem status_mem_status_trace (sw : StatusWorld) :
    GitCmd.statusPorcelain ∈ (getGitStatus sw).2 := by
  rcases getGitStatus_trace sw with h | h <;> rw [h] <;> simp

theorem getGitStatus_clean_iff (sw : StatusWorld) :
    (getGitStatus sw).1.cleanFlag = true ↔ classify sw = RepoClass.CleanRepo := by
  unfold getGitStatus classify
  dsimp only
  split_ifs <;> simp

/-! ## Claim C1 -/

/-- C1. For every repository whose status classification is not Clean
(Dirty or Ahead), `update_repository` never issues a pull command (in either
mode); in execute mode the commands issued are exactly the status-query
commands plus one fetch — which themselves contain no pull and no
checkout/cleanup — and the call succeeds iff the fetch exits zero. -/
theorem update_repository_dirty_or_ahead (w : GitWorld)
    (h : classify w.first = RepoClass.Dirty ∨ classify w.first = RepoClass.Ahead) :
    (∀ testMode, GitCmd.pull ∉ (updateRepository testMode w).2) ∧
    (updateRepository false w).2 = (getGitStatus w.first).2 ++ [GitCmd.fetch] ∧
    GitCmd.pull ∉ (getGitStatus w.first).2 ∧
    GitCmd.checkoutDot ∉ (getGitStatus w.first).2 ∧
    ((updateRepository false w).1.success = true ↔ w.fetchExit = 0) := by
  have hnc : (getGitStatus w.first).1.cleanFlag = false := by
    cases hb : (getGitStatus w.first).1.cleanFlag
    · rfl
    · exfalso
      have hc := (getGitStatus_clean_iff w.first).mp hb
      rcases h with h | h <;> rw [h] at hc <;> simp at hc
  refine ⟨?_, ?_, pull_not_mem_status_trace w.first,
    checkout_not_mem_status_trace w.first, ?_⟩
  · intro testMode
    cases testMode <;>
      by_cases hf : w.fetchExit = 0 <;>
        simp [updateRepository, hnc, hf, pull_not_mem_status_trace w.first]
  · by_cases hf : w.fetchExit = 0 <;> simp [updateRepository, hnc, hf]
  · by_cases hf : w.fetchExit = 0 <;> simp [updateRepository, hnc, hf]

/-- Witness for C1 at a concrete Dirty repository (one modified tracked
`.py` file, successful fetch). -/
theorem update_repository_dirty_or_ahead_witness :
    (updateRepository false ⟨⟨0, " M foo.py", ""⟩, ⟨0, "", ""⟩, 0, "", "", 0, ""⟩).2 =
      (getGitStatus ⟨0, " M foo.py", ""⟩).2 ++ [GitCmd.fetch] ∧
    ((updateRepository false
        ⟨⟨0, " M foo.py", ""⟩, ⟨0, "", ""⟩, 0, "", "", 0, ""⟩).1.success = true ↔
      (0 : Int) = 0) :=
  ⟨(update_repository_dirty_or_ahead _ (Or.inl (by decide))).2.1,
   (update_repository_dirty_or_ahead _ (Or.inl (by decide))).2.2.2.2⟩

/-! ## Claim C4 -/

/-- C4 (divergence): the untracked compiled-bytecode file `foo.pyc` —
ignorable under the claim's suffix rule for `*.pyc` — is treated as a
*relevant change* by `_is_ignored_change`, whose `endswith` probe keeps the
`*` of a file pattern as a literal character; an untracked `__pycache__/`
directory is ignorable under both readings. -/
theorem is_ignored_change_star_literal :
    isIgnoredChange "?? foo.pyc" = false ∧
    specIsIgnorable "?? foo.pyc" = true ∧
    isIgnoredChange "?? __pycache__/" = true ∧
    specIsIgnorable "?? __pycache__/" = true := by decide

/-! ## Claim C2 -/

/-- C2 (divergence): in dry-run (test) mode, `update_repository` still
executes a real external command: the `get_git_status` call — which issues
`git status --porcelain` via `subprocess.run` — precedes the
`self.test_mode.enabled` check, so its command is issued for every
repository, contradicting "invokes no external command". -/
theorem updateRepository_testmode_issues_status (w : GitWorld) :
    GitCmd.statusPorcelain ∈ (updateRepository true w).2 := by
  have hmem := status_mem_status_trace w.first
  unfold updateRepository
  dsimp only
  split_ifs <;> simp_all

/-! ## Claim C3 -/

/-- C3 (divergence): a genuinely clean repository — empty porcelain
status output — yields `was_cleaned_by_filtering = true`, not `false`:
`"".strip().split("\n")` is `[""]`, whose length 1 exceeds the 0 relevant
changes, so artifact cleanup is *not* gated off for it. -/
theorem getGitStatus_empty_output_filtered_flag :
    (getGitStatus ⟨0, "", ""⟩).1 =
      ⟨true, "Repository is clean", true⟩ := by decide

/-! ## Claim C8 -/

/-- C8. In execute mode `install_package` returns success with no error
message exactly when the installer exits zero or its stderr contains a known
benign substring (matched case-insensitively); every other non-zero exit
returns failure carrying the stripped stderr text; and a raised exception is
converted to a returned failure, never propagated. -/
theorem install_package_classification (package : String) (version : Option String)
    (code : Int) (out err : String) :
    (installPackage false package version (.ran code out err) = (true, none) ↔
      (code = 0 ∨ stderrIsBenign err = true)) ∧
    (code ≠ 0 → stderrIsBenign err = false →
      installPackage false package version (.ran code out err) =
        (false, some (pyStrip err))) ∧
    (∀ e, installPackage false package version (.raised e) = (false, some e)) := by
  refine ⟨?_, ?_, fun e => rfl⟩
  · by_cases hc : code = 0
    · simp [installPackage, hc]
    · by_cases hb : stderrIsBenign err <;> simp [installPackage, hc, hb]
  · intro hc hb
    simp [installPackage, hc, hb]

/-- Witness for C8: a concrete hard failure (exit 1, non-benign stderr)
returns failure with the stripped stderr text. -/
theorem install_package_classification_witness :
    (1 : Int) ≠ 0 ∧
    stderrIsBenign "ERROR: No matching distribution found " = false ∧
    installPackage false "requests" none
        (.ran 1 "" "ERROR: No matching distribution found ") =
      (false, some "ERROR: No matching distribution found") :=
  ⟨by decide, by decide,
   (install_package_classification "requests" none 1 ""
      "ERROR: No matching distribution found ").2.1 (by decide) (by decide)⟩

/-! ## Claim C10 -/

/-- C10. In dry-run (test) mode `update_repository` always returns
success, whatever the repository's status classification, and
`install_package` always returns `(True, None)` for every package, version
and would-be installer outcome; so neither operation can produce a failure
record in a dry run. -/
theorem dry_run_operations_always_succeed :
    (∀ w : GitWorld, (updateRepository true w).1.success = true) ∧
    (∀ (package : String) (version : Option String) (outcome : PipOutcome),
      installPackage true package version outcome = (true, none)) := by
  constructor
  · intro w
    unfold updateRepository
    dsimp only
    split_ifs <;> simp_all
  · intro _ _ _
    rfl

/-! ## Claim C5 -/

/-- C5 (counterexample): reference `p==2.0.0` against candidate
`p>=1.0.0`.  Under the claim's reading the two differ significantly (1.0.0 is
not the same version as 2.0.0), but `compare_versions` returns false: the
code applies the candidate's `>=1.0.0` constraint to the reference's version
2.0.0, which is satisfied. -/
theorem compare_versions_claim_counterexample :
    compareVersions ⟨"p", some ⟨.EXACT, "2.0.0"⟩⟩
        ⟨"p", some ⟨.GREATER_EQUAL, "1.0.0"⟩⟩ = false ∧
    compareVersionsClaim ⟨"p", some ⟨.EXACT, "2.0.0"⟩⟩
        ⟨"p", some ⟨.GREATER_EQUAL, "1.0.0"⟩⟩ = true := by decide

/-- C5 (amended): `differsSignificantly` is false whenever either
dependency lacks a constraint; when the reference's operator is equals it
returns true unless the *reference's* version satisfies the *candidate's*
constraint (the candidate's operator applied to the reference's version) —
in particular, when both constraints are exact and both versions parse, it is
true iff the two versions differ; otherwise it returns true unless the
candidate's version falls inside the reference's constraint. -/
theorem compare_versions_amended (mainPackage subPackage : Package) :
    (mainPackage.version = none ∨ subPackage.version = none →
      compareVersions mainPackage subPackage = false) ∧
    (∀ mainV subV, mainPackage.version = some mainV →
        subPackage.version = some subV →
      (mainV.specifier = VersionSpecifier.EXACT →
        compareVersions mainPackage subPackage =
          !(isCompatibleWith subV mainV.version)) ∧
      (mainV.specifier = VersionSpecifier.EXACT →
        subV.specifier = VersionSpecifier.EXACT →
        ∀ mv sv, parseVersion mainV.version = some mv →
          parseVersion subV.version = some sv →
          (compareVersions mainPackage subPackage = true ↔
            vcmp mv sv ≠ Ordering.eq)) ∧
      (mainV.specifier ≠ VersionSpecifier.EXACT →
        compareVersions mainPackage subPackage =
          !(isCompatibleWith mainV subV.version))) := by
  constructor
  · intro h
    unfold compareVersions
    rcases h with h | h
    · rw [h]
    · rw [h]
      cases mainPackage.version <;> rfl
  · intro mainV subV hm hs
    refine ⟨?_, ?_, ?_⟩
    · intro hex
      simp [compareVersions, hm, hs, hex]
    · intro hex hsx mv sv hpm hps
      have hic : isCompatibleWith subV mainV.version =
          decide (vcmp mv sv = Ordering.eq) := by
        simp [isCompatibleWith, hps, hpm, hsx]
      simp [compareVersions, hm, hs, hex, hic]
    · intro hnex
      simp [compareVersions, hm, hs, hnex]

/-- Witness for C5's amended statement: two exact constraints on different
versions differ significantly. -/
theorem compare_versions_amended_witness :
    compareVersions ⟨"p", some ⟨.EXACT, "1.0.0"⟩⟩
        ⟨"p", some ⟨.EXACT, "1.0.1"⟩⟩ = true :=
  (((compare_versions_amended ⟨"p", some ⟨.EXACT, "1.0.0"⟩⟩
        ⟨"p", some ⟨.EXACT, "1.0.1"⟩⟩).2
      ⟨.EXACT, "1.0.0"⟩ ⟨.EXACT, "1.0.1"⟩ rfl rfl).2.1
    rfl rfl [1, 0, 0] [1, 0, 1] (by decide) (by decide)).mpr (by decide)

/-! ## Facts about the splitting primitives, used for the round-trip claim -/

theorem listStarts_eq_append (tok : List Char) :
    ∀ xs, listStarts xs tok = true → xs = tok ++ xs.drop tok.length := by
  induction tok with
  | nil => intro xs _; simp
  | cons b bs ih =>
    intro xs h
    cases xs with
    | nil => simp [listStarts] at h
    | cons a as =>
      simp only [listStarts, Bool.and_eq_true, decide_eq_true_eq] at h
      obtain ⟨h1, h2⟩ := h
      subst h1
      simpa using ih as h2

theorem splitCharsFirst_append (tok : List Char) :
    ∀ cs a b, splitCharsFirst tok cs = some (a, b) → cs = a ++ tok ++ b := by
  intro cs
  induction cs with
  | nil =>
    intro a b h
    simp only [splitCharsFirst] at h
    by_cases hs : listStarts [] tok = true
    · rw [if_pos hs] at h
      cases tok with
      | nil =>
        simp at h
        simp [h.1, h.2]
      | cons c t => simp [listStarts] at hs
    · rw [if_neg hs] at h
      cases h
  | cons c t ih =>
    intro a b h
    simp only [splitCharsFirst] at h
    by_cases hs : listStarts (c :: t) tok = true
    · rw [if_pos hs] at h
      have heq := listStarts_eq_append tok (c :: t) hs
      simp only [Option.some.injEq, Prod.mk.injEq] at h
      rw [← h.1, ← h.2]
      simpa using heq
    · rw [if_neg hs] at h
      cases hrec : splitCharsFirst tok t with
      | none => rw [hrec] at h; cases h
      | some ab =>
        obtain ⟨a', b'⟩ := ab
        rw [hrec] at h
        simp only [Option.some.injEq, Prod.mk.injEq] at h
        rw [← h.1, ← h.2]
        have := ih a' b' hrec
        simp [this]

theorem splitCharsFirst_isSome (tok : List Char) :
    ∀ cs, (splitCharsFirst tok cs).isSome = listHasSub tok cs := by
  intro cs
  induction cs with
  | nil =>
    simp only [splitCharsFirst, listHasSub]
    cases h : listStarts [] tok <;> simp [h]
  | cons c t ih =>
    simp only [splitCharsFirst, listHasSub]
    by_cases hs : listStarts (c :: t) tok = true
    · simp [hs]
    · simp only [Bool.not_eq_true] at hs
      rw [hs]
      simp only [Bool.false_or, if_neg (by simp [hs] : ¬listStarts (c :: t) tok = true)]
      cases hrec : splitCharsFirst tok t with
      | none => rw [hrec] at ih; simpa using ih
      | some ab => rw [hrec] at ih; simpa using ih

theorem any_filter_head {α : Type} (p : α → Bool) :
    ∀ l : List α, l.any p = true →
      ∃ s rest, l.filter p = s :: rest ∧ p s = true := by
  intro l
  induction l with
  | nil => simp
  | cons a t ih =>
    intro h
    by_cases ha : p a = true
    · exact ⟨a, t.filter p, by simp [List.filter_cons, ha], ha⟩
    · simp only [List.any_cons, Bool.or_eq_true] at h
      rcases h with h | h
      · exact absurd h ha
      · obtain ⟨s, rest, hf, hp⟩ := ih h
        exact ⟨s, rest, by simp [List.filter_cons, ha, hf], hp⟩

theorem strAppend_assoc (x y z : String) : x ++ y ++ z = x ++ (y ++ z) := by
  obtain ⟨xd⟩ := x
  obtain ⟨yd⟩ := y
  obtain ⟨zd⟩ := z
  show String.mk ((xd ++ yd) ++ zd) = String.mk (xd ++ (yd ++ zd))
  rw [List.append_assoc]

/-! ## Claim C9 -/

/-- C9. For every dependency line containing a known operator token (and
no embedded comment), rendering the parsed dependency reproduces the line up
to whitespace normalization: the line decomposes as `pre ++ token ++ post` at
the winning token's first occurrence, and
`str(Package.from_string(line)) = pre.strip() ++ token ++ post.strip()`. -/
theorem package_round_trip (line : String)
    (hop : SPEC_ORDER.any (fun s => strContains line (specValue s)) = true)
    (hnc : line.data.contains '#' = false) :
    ∃ s pre post, s ∈ SPEC_ORDER ∧ strContains line (specValue s) = true ∧
      line = pre ++ specValue s ++ post ∧
      packageToString (packageFromString line) =
        pyStrip pre ++ specValue s ++ pyStrip post := by
  obtain ⟨s, rest, hfil, hps⟩ := any_filter_head _ SPEC_ORDER hop
  have hsmem : s ∈ SPEC_ORDER := by
    have hm : s ∈ SPEC_ORDER.filter (fun t => strContains line (specValue t)) := by
      rw [hfil]; exact List.mem_cons_self _ _
    exact List.mem_of_mem_filter hm
  have hsome : (splitCharsFirst (specValue s).data line.data).isSome = true := by
    rw [splitCharsFirst_isSome]; exact hps
  obtain ⟨⟨a, b⟩, hsp⟩ := Option.isSome_iff_exists.mp hsome
  have hline : line.data = a ++ (specValue s).data ++ b :=
    splitCharsFirst_append _ _ _ _ hsp
  have hsplit : splitOnFirst line (specValue s) = some (String.mk a, String.mk b) := by
    unfold splitOnFirst; rw [hsp]
  have hC : ¬((!(strContains line "==") && !(strContains line ">=") &&
      !(strContains line "<=") && !(strContains line ">") &&
      !(strContains line "<") && !(strContains line "~=") &&
      !(strContains line "!=")) = true) := by
    intro hCt
    cases s <;> simp [specValue] at hps <;> simp_all
  refine ⟨s, String.mk a, String.mk b, hsmem, hps, ?_, ?_⟩
  · show line = String.mk a ++ specValue s ++ String.mk b
    calc line = String.mk line.data := rfl
      _ = String.mk (a ++ (specValue s).data ++ b) := by rw [hline]
      _ = String.mk a ++ specValue s ++ String.mk b := rfl
  · unfold packageFromString
    rw [if_neg hC, hfil]
    dsimp only
    rw [hsplit]
    dsimp only [packageToString, versionStr]
    rw [strAppend_assoc]

/-- Witness for C9 at the spec's own example line `requests>=2.0`. -/
theorem package_round_trip_witness :
    SPEC_ORDER.any (fun s => strContains "requests>=2.0" (specValue s)) = true ∧
    "requests>=2.0".data.contains '#' = false ∧
    ∃ s pre post, s ∈ SPEC_ORDER ∧
      strContains "requests>=2.0" (specValue s) = true ∧
      "requests>=2.0" = pre ++ specValue s ++ post ∧
      packageToString (packageFromString "requests>=2.0") =
        pyStrip pre ++ specValue s ++ pyStrip post :=
  ⟨by decide, by decide, package_round_trip "requests>=2.0" (by decide) (by decide)⟩

/-! ## Association-list facts for the conflict-analysis claim -/

theorem getA_setA {α : Type} (k : String) (v : α) :
    ∀ (l : List (String × α)) key,
      getA (setA l k v) key = if k = key then some v else getA l key := by
  intro l
  induction l with
  | nil =>
    intro key
    by_cases hkey : k = key <;> simp [setA, getA, hkey]
  | cons hd t ih =>
    intro key
    obtain ⟨k', v'⟩ := hd
    by_cases hk : k' = k
    · subst hk
      by_cases hkey : k' = key <;> simp [setA, getA, hkey]
    · by_cases hkey : k = key
      · subst hkey
        simp [setA, getA, hk, ih]
      · simp [setA, getA, hk, hkey, ih]

theorem setA_keys {α : Type} (k : String) (v : α) :
    ∀ l : List (String × α),
      (setA l k v).map Prod.fst =
        if k ∈ l.map Prod.fst then l.map Prod.fst
        else l.map Prod.fst ++ [k] := by
  intro l
  induction l with
  | nil => simp [setA]
  | cons hd t ih =>
    obtain ⟨k', v'⟩ := hd
    by_cases hk : k' = k
    · subst hk
      simp [setA]
    · by_cases hmem : k ∈ t.map Prod.fst <;>
        simp [setA, hk, hmem, ih, Ne.symm hk]

theorem setA_keys_nodup {α : Type} (k : String) (v : α)
    (l : List (String × α)) (h : (l.map Prod.fst).Nodup) :
    ((setA l k v).map Prod.fst).Nodup := by
  rw [setA_keys]
  by_cases hmem : k ∈ l.map Prod.fst
  · simpa [hmem] using h
  · rw [if_neg hmem]
    refine List.Nodup.append h (List.nodup_singleton k) ?_
    intro a ha hka
    simp only [List.mem_singleton] at hka
    subst hka
    exact hmem ha

theorem getA_eq_none_of_not_mem {α : Type} :
    ∀ (l : List (String × α)) key,
      key ∉ l.map Prod.fst → getA l key = none := by
  intro l
  induction l with
  | nil => intro key _; rfl
  | cons hd t ih =>
    intro key h
    obtain ⟨k', v'⟩ := hd
    simp only [List.map_cons, List.mem_cons, not_or] at h
    simp [getA, Ne.symm h.1, ih _ h.2]

theorem buildPVAux_keys_nodup :
    ∀ (ops : List OperationResult) (acc : List (String × List (String × String))),
      (acc.map Prod.fst).Nodup → ((buildPVAux ops acc).map Prod.fst).Nodup := by
  intro ops
  induction ops with
  | nil => intro acc h; exact h
  | cons op rest ih =>
    intro acc h
    unfold buildPVAux
    cases hext : extractInstall op with
    | none => exact ih acc h
    | some triple =>
      obtain ⟨package, proj, version⟩ := triple
      exact ih _ (setA_keys_nodup _ _ _ h)

theorem buildPackageVersions_keys_nodup (ops : List OperationResult) :
    ((buildPackageVersions ops).map Prod.fst).Nodup :=
  buildPVAux_keys_nodup ops [] (by simp)

theorem getA_buildConflicts_none :
    ∀ (l : List (String × List (String × String))) package,
      getA l package = none → getA (buildConflicts l) package = none := by
  intro l
  induction l with
  | nil => intro package _; rfl
  | cons hd t ih =>
    intro package h
    obtain ⟨p, vs⟩ := hd
    simp only [getA] at h
    by_cases hp : p = package
    · simp [hp] at h
    · rw [if_neg hp] at h
      unfold buildConflicts
      by_cases hc : isConflictEntry vs = true
      · simp [hc, getA, hp, ih _ h]
      · simp [hc, ih _ h]

theorem getA_buildConflicts_some :
    ∀ (l : List (String × List (String × String))) package entries,
      (l.map Prod.fst).Nodup →
      getA l package = some entries →
      getA (buildConflicts l) package =
        if isConflictEntry entries = true then some entries else none := by
  intro l
  induction l with
  | nil => intro package entries _ h; cases h
  | cons hd t ih =>
    intro package entries hnd h
    obtain ⟨p, vs⟩ := hd
    rw [List.map_cons, List.nodup_cons] at hnd
    have hbc : buildConflicts ((p, vs) :: t) =
        (if isConflictEntry vs then (p, vs) :: buildConflicts t
         else buildConflicts t) := rfl
    by_cases hp : p = package
    · simp only [getA, if_pos hp] at h
      have hve : vs = entries := by injection h
      subst hve
      subst hp
      by_cases hc : isConflictEntry vs = true
      · rw [hbc, if_pos hc, if_pos hc]
        simp [getA]
      · rw [hbc, if_neg hc, if_neg hc]
        exact getA_buildConflicts_none _ _ (getA_eq_none_of_not_mem _ _ hnd.1)
    · simp only [getA, if_neg hp] at h
      by_cases hc : isConflictEntry vs = true
      · rw [hbc, if_pos hc]
        simp only [getA, if_neg hp]
        exact ih _ _ hnd.2 h
      · rw [hbc, if_neg hc]
        exact ih _ _ hnd.2 h

theorem isConflictEntry_iff (entries : List (String × String)) :
    isConflictEntry entries = true ↔
      2 ≤ (entries.map Prod.snd).dedup.length := by
  unfold isConflictEntry
  simp only [Bool.and_eq_true, decide_eq_true_eq]
  constructor
  · intro h
    omega
  · intro h
    have h1 : (entries.map Prod.snd).dedup.length ≤ (entries.map Prod.snd).length :=
      List.Sublist.length_le (List.dedup_sublist _)
    simp only [List.length_map] at h1
    omega

theorem exists_pkgs_setA (acc : List (String × List String))
    (p0 newpkg proj package : String) :
    (∃ pkgs,
        getA (setA acc p0 (((getA acc p0).getD []) ++ [newpkg])) proj = some pkgs ∧
        package ∈ pkgs) ↔
      ((∃ pkgs, getA acc proj = some pkgs ∧ package ∈ pkgs) ∨
        (proj = p0 ∧ package = newpkg)) := by
  rw [getA_setA]
  by_cases hp : p0 = proj
  · subst hp
    rw [if_pos rfl]
    cases hacc : getA acc p0 with
    | none => simp [hacc]
    | some pkgs0 => simp [hacc]
  · rw [if_neg hp]
    constructor
    · exact fun h => Or.inl h
    · rintro (h | ⟨hproj, _⟩)
      · exact h
      · exact absurd hproj.symm hp

theorem getA_cons_single (p : String) (vs : List (String × String))
    (t : List (String × List (String × String)))
    (hpnot : p ∉ t.map Prod.fst) (proj package : String) :
    (∃ ver, getA ((p, vs) :: t) package = some [(proj, ver)]) ↔
      ((package = p ∧ ∃ ver, vs = [(proj, ver)]) ∨
        (∃ ver, getA t package = some [(proj, ver)])) := by
  by_cases hp : p = package
  · subst hp
    have ht : getA t p = none := getA_eq_none_of_not_mem t p hpnot
    simp [getA, ht]
  · have hg : getA ((p, vs) :: t) package = getA t package := by
      simp [getA, hp]
    rw [hg]
    constructor
    · exact fun h => Or.inr h
    · rintro (⟨hpk, _⟩ | h)
      · exact absurd hpk.symm hp
      · exact h

theorem buildUniques_mem :
    ∀ (l : List (String × List (String × String)))
      (acc : List (String × List String)),
      (l.map Prod.fst).Nodup →
      ∀ proj package,
        (∃ pkgs, getA (buildUniques l acc) proj = some pkgs ∧ package ∈ pkgs) ↔
        ((∃ pkgs, getA acc proj = some pkgs ∧ package ∈ pkgs) ∨
          (∃ ver, getA l package = some [(proj, ver)])) := by
  intro l
  induction l with
  | nil =>
    intro acc _ proj package
    simp [buildUniques, getA]
  | cons hd t ih =>
    intro acc hnd proj package
    obtain ⟨p, vs⟩ := hd
    rw [List.map_cons, List.nodup_cons] at hnd
    rw [getA_cons_single p vs t hnd.1 proj package]
    by_cases hlen : vs.length > 1
    · have hstep : buildUniques ((p, vs) :: t) acc = buildUniques t acc := by
        simp only [buildUniques]
        rw [if_pos hlen]
      rw [hstep, ih acc hnd.2 proj package]
      have hsing : ¬(package = p ∧ ∃ ver, vs = [(proj, ver)]) := by
        rintro ⟨_, ver, hv⟩
        rw [hv] at hlen
        simp at hlen
      constructor
      · rintro (h | h)
        · exact Or.inl h
        · exact Or.inr (Or.inr h)
      · rintro (h | (hX | h))
        · exact Or.inl h
        · exact absurd hX hsing
        · exact Or.inr h
    · cases vs with
      | nil =>
        have hstep : buildUniques ((p, ([] : List (String × String))) :: t) acc =
            buildUniques t acc := by
          simp only [buildUniques]
          rw [if_neg hlen]
        rw [hstep, ih acc hnd.2 proj package]
        have hsing :
            ¬(package = p ∧ ∃ ver, ([] : List (String × String)) = [(proj, ver)]) := by
          rintro ⟨_, ver, hv⟩
          cases hv
        constructor
        · rintro (h | h)
          · exact Or.inl h
          · exact Or.inr (Or.inr h)
        · rintro (h | (hX | h))
          · exact Or.inl h
          · exact absurd hX hsing
          · exact Or.inr h
      | cons hd0 tl0 =>
        obtain ⟨p0, v0⟩ := hd0
        cases tl0 with
        | nil =>
          have hstep : buildUniques ((p, [(p0, v0)]) :: t) acc =
              buildUniques t (setA acc p0 (((getA acc p0).getD []) ++ [p])) := by
            simp only [buildUniques]
            rw [if_neg hlen]
          rw [hstep, ih _ hnd.2 proj package, exists_pkgs_setA]
          have hsv : (package = p ∧ ∃ ver, [(p0, v0)] = [(proj, ver)]) ↔
              (proj = p0 ∧ package = p) := by
            constructor
            · rintro ⟨hpk, ver, hv⟩
              simp only [List.cons.injEq, Prod.mk.injEq, and_true] at hv
              exact ⟨hv.1.symm, hpk⟩
            · rintro ⟨hproj, hpk⟩
              exact ⟨hpk, v0, by rw [hproj]⟩
          rw [hsv]
          constructor
          · rintro ((h | h) | h)
            · exact Or.inl h
            · exact Or.inr (Or.inl h)
            · exact Or.inr (Or.inr h)
          · rintro (h | (h | h))
            · exact Or.inl (Or.inl h)
            · exact Or.inl (Or.inr h)
            · exact Or.inr h
        | cons hd1 tl1 =>
          exfalso
          apply hlen
          simp only [List.length_cons]
          omega

/-! ## Claim C6 -/

/-- C6. Over the extracted installation map `package_versions` (package →
(subproject → version), second whitespace-separated word of each successful
"installed" record, split on `==`, version "any" otherwise): the conflicts
view contains a package — with every (subproject, version) pair — exactly
when it carries at least two distinct version strings across subprojects; a
package is a unique installation of subproject `proj` exactly when its map is
the singleton `{proj: version}`; hence a package observed in several
subprojects at one identical version appears in neither view. -/
theorem analyze_package_conflicts_spec (ops : List OperationResult) :
    (∀ package entries,
      getA (buildPackageVersions ops) package = some entries →
        getA (analyzePackageConflicts ops).1 package =
          (if 2 ≤ (entries.map Prod.snd).dedup.length then some entries
           else none)) ∧
    (∀ package,
      getA (buildPackageVersions ops) package = none →
        getA (analyzePackageConflicts ops).1 package = none) ∧
    (∀ proj package,
      (∃ pkgs,
        getA (analyzePackageConflicts ops).2 proj = some pkgs ∧
        package ∈ pkgs) ↔
      (∃ ver, getA (buildPackageVersions ops) package = some [(proj, ver)])) := by
  refine ⟨?_, ?_, ?_⟩
  · intro package entries h
    have hc := getA_buildConflicts_some (buildPackageVersions ops) package entries
      (buildPackageVersions_keys_nodup ops) h
    show getA (buildConflicts (buildPackageVersions ops)) package = _
    rw [hc]
    by_cases hcond : isConflictEntry entries = true
    · rw [if_pos hcond, if_pos ((isConflictEntry_iff entries).mp hcond)]
    · rw [if_neg hcond,
        if_neg (fun hh => hcond ((isConflictEntry_iff entries).mpr hh))]
  · intro package h
    exact getA_buildConflicts_none _ _ h
  · intro proj package
    have hu := buildUniques_mem (buildPackageVersions ops) []
      (buildPackageVersions_keys_nodup ops) proj package
    simpa [getA] using hu

/-- Witness for C6 at the spec's example records: `pkg` is reported as a
conflict with both pairs, `other` as a unique installation of A. -/
theorem analyze_package_conflicts_spec_witness :
    getA (analyzePackageConflicts opsExample).1 "pkg" =
      some [("A", "1.0.0"), ("B", "2.0.0")] ∧
    (∃ pkgs,
      getA (analyzePackageConflicts opsExample).2 "A" = some pkgs ∧
      "other" ∈ pkgs) := by
  constructor
  · have h := (analyze_package_conflicts_spec opsExample).1 "pkg"
      [("A", "1.0.0"), ("B", "2.0.0")] (by decide)
    rw [if_pos (by decide)] at h
    exact h
  · exact ((analyze_package_conflicts_spec opsExample).2.2 "A" "other").mpr
      ⟨"1.0.0", by decide⟩

/-! ## Facts about `_create_subproject` and the two passes -/

theorem createSubproject_path (fs : FileSystem) (parts : List String)
    (maxDepth : Nat) (req : Bool) (s : SubprojectInfo)
    (h : createSubproject fs parts maxDepth req = some s) : s.path = parts := by
  unfold createSubproject at h
  dsimp only at h
  split_ifs at h
  injection h with h'
  rw [← h']

theorem createSubproject_isSome (fs : FileSystem) (parts : List String)
    (maxDepth : Nat) (req : Bool) :
    (createSubproject fs parts maxDepth req).isSome = pathOk fs maxDepth parts := by
  unfold createSubproject pathOk
  dsimp only
  split_ifs with h1 h2
  · simp [h1]
  · simp only [Option.isSome_none, h1, Bool.not_false, Bool.true_and]
    simp [Nat.not_le.mpr h2]
  · simp only [Option.isSome_some, h1, Bool.not_false, Bool.true_and]
    simp [Nat.le_of_not_lt h2]

theorem passGit_eq (fs : FileSystem) (maxDepth : Nat) :
    ∀ (ds : List FSDir) (processed : List (List String)),
      (ds.map FSDir.parts).Nodup →
      (∀ d ∈ ds, d.hasGitDir = true → d.parts ∉ processed) →
      passGit fs maxDepth ds processed =
        ((ds.filter (fun d => d.hasGitDir)).reverse.map FSDir.parts ++ processed,
         (ds.filter (fun d => d.hasGitDir)).filterMap
           (fun d => createSubproject fs d.parts maxDepth d.hasRequirements)) := by
  intro ds
  induction ds with
  | nil => intro processed _ _; simp [passGit]
  | cons d rest ih =>
    intro processed hnd hnp
    rw [List.map_cons, List.nodup_cons] at hnd
    by_cases hg : d.hasGitDir = true
    · have hp : d.parts ∉ processed := hnp d (List.mem_cons_self d rest) hg
      have hstep : passGit fs maxDepth (d :: rest) processed =
          ((passGit fs maxDepth rest (d.parts :: processed)).1,
           (match createSubproject fs d.parts maxDepth d.hasRequirements with
            | some s => [s]
            | none => []) ++ (passGit fs maxDepth rest (d.parts :: processed)).2) := by
        simp only [passGit]
        rw [if_pos hg, if_neg hp]
      have hnp2 : ∀ d' ∈ rest, d'.hasGitDir = true →
          d'.parts ∉ d.parts :: processed := by
        intro d' hd' hg' hmem
        rcases List.mem_cons.mp hmem with heq | hmem2
        · exact hnd.1 (heq ▸ List.mem_map_of_mem FSDir.parts hd')
        · exact hnp d' (List.mem_cons_of_mem d hd') hg' hmem2
      rw [hstep, ih (d.parts :: processed) hnd.2 hnp2]
      rw [List.filter_cons, if_pos hg, List.filterMap_cons, List.reverse_cons,
        List.map_append]
      cases hc : createSubproject fs d.parts maxDepth d.hasRequirements <;>
        simp [hc, List.append_assoc]
    · have hstep : passGit fs maxDepth (d :: rest) processed =
          passGit fs maxDepth rest processed := by
        simp only [passGit]
        rw [if_neg hg]
      have hnp2 : ∀ d' ∈ rest, d'.hasGitDir = true → d'.parts ∉ processed :=
        fun d' hd' => hnp d' (List.mem_cons_of_mem d hd')
      rw [hstep, ih processed hnd.2 hnp2, List.filter_cons, if_neg hg]

theorem passReq_eq (fs : FileSystem) (maxDepth : Nat) :
    ∀ (ds : List FSDir) (processed : List (List String)),
      (ds.map FSDir.parts).Nodup →
      passReq fs maxDepth ds processed =
        (ds.filter (fun d =>
            d.hasRequirements && !(decide (d.parts ∈ processed)))).filterMap
          (fun d => createSubproject fs d.parts maxDepth true) := by
  intro ds
  induction ds with
  | nil => intro processed _; simp [passReq]
  | cons d rest ih =>
    intro processed hnd
    rw [List.map_cons, List.nodup_cons] at hnd
    by_cases hr : d.hasRequirements = true
    · by_cases hp : d.parts ∈ processed
      · have hstep : passReq fs maxDepth (d :: rest) processed =
            passReq fs maxDepth rest processed := by
          simp only [passReq]
          rw [if_pos hr, if_pos hp]
        rw [hstep, ih processed hnd.2, List.filter_cons,
          if_neg (by simp [hr, hp])]
      · have hstep : passReq fs maxDepth (d :: rest) processed =
            (match createSubproject fs d.parts maxDepth true with
             | some s => [s]
             | none => []) ++ passReq fs maxDepth rest (d.parts :: processed) := by
          simp only [passReq]
          rw [if_pos hr, if_neg hp]
        have hcong : rest.filter (fun d' =>
              d'.hasRequirements && !(decide (d'.parts ∈ d.parts :: processed))) =
            rest.filter (fun d' =>
              d'.hasRequirements && !(decide (d'.parts ∈ processed))) := by
          refine List.filter_congr ?_
          intro d' hd'
          have hne : d'.parts ≠ d.parts := by
            intro heq
            exact hnd.1 (heq ▸ List.mem_map_of_mem FSDir.parts hd')
          simp [List.mem_cons, hne]
        rw [hstep, ih (d.parts :: processed) hnd.2, hcong, List.filter_cons,
          if_pos (by simp [hr, hp]), List.filterMap_cons]
        cases hc : createSubproject fs d.parts maxDepth true <;> simp [hc]
    · have hstep : passReq fs maxDepth (d :: rest) processed =
          passReq fs maxDepth rest processed := by
        simp only [passReq]
        rw [if_neg hr]
      rw [hstep, ih processed hnd.2, List.filter_cons, if_neg (by simp [hr])]

theorem findSubprojects_eq (fs : FileSystem) (maxDepth : Nat)
    (hnd : (fs.dirs.map FSDir.parts).Nodup) :
    findSubprojects fs maxDepth =
      ((fs.dirs.filter (fun d => d.hasGitDir)).filterMap
        (fun d => createSubproject fs d.parts maxDepth d.hasRequirements)) ++
      ((fs.dirs.filter (fun d => d.hasRequirements && !d.hasGitDir)).filterMap
        (fun d => createSubproject fs d.parts maxDepth true)) := by
  unfold findSubprojects
  rw [passGit_eq fs maxDepth fs.dirs [] hnd (by simp)]
  dsimp only
  rw [passReq_eq fs maxDepth fs.dirs _ hnd]
  have hcong : fs.dirs.filter (fun d =>
        d.hasRequirements &&
          !(decide (d.parts ∈
            (fs.dirs.filter (fun d => d.hasGitDir)).reverse.map FSDir.parts ++ ([] : List (List String))))) =
      fs.dirs.filter (fun d => d.hasRequirements && !d.hasGitDir) := by
    refine List.filter_congr ?_
    intro d hd
    have hmem : (d.parts ∈
        (fs.dirs.filter (fun d => d.hasGitDir)).reverse.map FSDir.parts ++ ([] : List (List String))) ↔
        d.hasGitDir = true := by
      rw [List.append_nil, List.mem_map]
      constructor
      · rintro ⟨d', hd', hpd'⟩
        rw [List.mem_reverse, List.mem_filter] at hd'
        have heq : d' = d :=
          List.inj_on_of_nodup_map hnd hd'.1 hd hpd'
        rw [← heq]
        exact hd'.2
      · intro hg
        exact ⟨d, by rw [List.mem_reverse, List.mem_filter]; exact ⟨hd, hg⟩, rfl⟩
    have hdec : decide (d.parts ∈
        (fs.dirs.filter (fun d => d.hasGitDir)).reverse.map FSDir.parts ++ ([] : List (List String))) =
        d.hasGitDir := by
      by_cases hg : d.hasGitDir = true
      · rw [hg]
        exact decide_eq_true (hmem.mpr hg)
      · simp only [Bool.not_eq_true] at hg
        rw [hg]
        exact decide_eq_false (fun hmm => by rw [hmem.mp hmm] at hg; cases hg)
    rw [hdec]
  rw [hcong]

/-- Mapping `path` over the subprojects a pass creates recovers the parts of
the directories that survive the `_create_subproject` filter. -/
theorem filterMap_create_paths (fs : FileSystem) (maxDepth : Nat)
    (g : FSDir → Bool) :
    ∀ l : List FSDir,
      ((l.filterMap (fun d => createSubproject fs d.parts maxDepth (g d))).map
          SubprojectInfo.path) =
        (l.filter (fun d => pathOk fs maxDepth d.parts)).map FSDir.parts := by
  intro l
  induction l with
  | nil => simp
  | cons d rest ih =>
    rw [List.filterMap_cons, List.filter_cons]
    cases hc : createSubproject fs d.parts maxDepth (g d) with
    | none =>
      have hok : pathOk fs maxDepth d.parts = false := by
        rw [← createSubproject_isSome fs d.parts maxDepth (g d), hc]
        rfl
      rw [if_neg (by simp [hok])]
      exact ih
    | some s =>
      have hok : pathOk fs maxDepth d.parts = true := by
        rw [← createSubproject_isSome fs d.parts maxDepth (g d), hc]
        rfl
      rw [if_pos (by simp [hok]), List.map_cons, List.map_cons,
        createSubproject_path fs d.parts maxDepth (g d) s hc, ih]

/-! ## Claim C7 -/

/-- C7 (counterexample): with root `.r` — a dot-prefixed segment in the
root's *own* path — and one candidate directory `proj` holding a manifest at
depth 1, the claim's relative-path acceptance admits the candidate, yet
discovery returns nothing: `_create_subproject` tests `path.parts`, the full
path, so the root's hidden segment disqualifies every candidate. -/
theorem find_subprojects_claim_counterexample :
    (⟨[".r", "proj"], false, true⟩ : FSDir) ∈ fsHiddenRoot.dirs ∧
    claimAccepts fsHiddenRoot 2 ⟨[".r", "proj"], false, true⟩ = true ∧
    findSubprojects fsHiddenRoot 2 = [] := by decide

/-- C7 (amended): over physically distinct directories (no duplicate
`parts`), `find_subprojects` returns — once each — exactly the candidate
directories (those holding a version-control directory or a manifest) for
which no segment of the candidate's *full* path, the root's own segments
included, starts with a dot, and whose depth relative to the root (0 for the
root itself) does not exceed `maxDepth`. -/
theorem find_subprojects_amended (fs : FileSystem) (maxDepth : Nat)
    (hnd : (fs.dirs.map FSDir.parts).Nodup) :
    ((findSubprojects fs maxDepth).map SubprojectInfo.path).Nodup ∧
    (∀ s ∈ findSubprojects fs maxDepth, ∃ d ∈ fs.dirs, s.path = d.parts) ∧
    (∀ d ∈ fs.dirs,
      ((∃ s ∈ findSubprojects fs maxDepth, s.path = d.parts) ↔
        codeAccepts fs maxDepth d = true)) := by
  have heq := findSubprojects_eq fs maxDepth hnd
  refine ⟨?_, ?_, ?_⟩
  · rw [heq, List.map_append,
      filterMap_create_paths fs maxDepth FSDir.hasRequirements,
      filterMap_create_paths fs maxDepth (fun _ => true)]
    refine List.Nodup.append ?_ ?_ ?_
    · exact List.Nodup.sublist
        (List.Sublist.map FSDir.parts
          ((List.filter_sublist _).trans (List.filter_sublist _))) hnd
    · exact List.Nodup.sublist
        (List.Sublist.map FSDir.parts
          ((List.filter_sublist _).trans (List.filter_sublist _))) hnd
    · intro x hx1 hx2
      rw [List.mem_map] at hx1 hx2
      obtain ⟨d1, hd1, hp1⟩ := hx1
      obtain ⟨d2, hd2, hp2⟩ := hx2
      rw [List.mem_filter, List.mem_filter] at hd1 hd2
      have h12 : d1 = d2 :=
        List.inj_on_of_nodup_map hnd hd1.1.1 hd2.1.1 (by rw [hp1, hp2])
      have hg1 : d1.hasGitDir = true := hd1.1.2
      have hg2 : (d2.hasRequirements && !d2.hasGitDir) = true := hd2.1.2
      rw [← h12] at hg2
      rw [hg1] at hg2
      simp at hg2
  · intro s hs
    rw [heq, List.mem_append] at hs
    rcases hs with hs | hs
    · rw [List.mem_filterMap] at hs
      obtain ⟨d, hd, hc⟩ := hs
      rw [List.mem_filter] at hd
      exact ⟨d, hd.1, createSubproject_path _ _ _ _ _ hc⟩
    · rw [List.mem_filterMap] at hs
      obtain ⟨d, hd, hc⟩ := hs
      rw [List.mem_filter] at hd
      exact ⟨d, hd.1, createSubproject_path _ _ _ _ _ hc⟩
  · intro d hd
    constructor
    · rintro ⟨s, hs, hpath⟩
      rw [heq, List.mem_append] at hs
      rcases hs with hs | hs
      · rw [List.mem_filterMap] at hs
        obtain ⟨d1, hd1, hc⟩ := hs
        rw [List.mem_filter] at hd1
        have hpeq : d1.parts = d.parts := by
          rw [← createSubproject_path fs d1.parts maxDepth d1.hasRequirements s hc,
            hpath]
        have hd1d : d1 = d := List.inj_on_of_nodup_map hnd hd1.1 hd hpeq
        have hsome : (createSubproject fs d1.parts maxDepth
            d1.hasRequirements).isSome = true := by rw [hc]; rfl
        rw [createSubproject_isSome] at hsome
        rw [← hd1d]
        unfold codeAccepts
        rw [hd1.2, hsome]
        rfl
      · rw [List.mem_filterMap] at hs
        obtain ⟨d1, hd1, hc⟩ := hs
        rw [List.mem_filter] at hd1
        have hpeq : d1.parts = d.parts := by
          rw [← createSubproject_path fs d1.parts maxDepth true s hc, hpath]
        have hd1d : d1 = d := List.inj_on_of_nodup_map hnd hd1.1 hd hpeq
        have hsome : (createSubproject fs d1.parts maxDepth true).isSome = true := by
          rw [hc]; rfl
        rw [createSubproject_isSome] at hsome
        rw [← hd1d]
        unfold codeAccepts
        rw [Bool.and_eq_true] at hd1
        rw [hd1.2.1, hsome]
        simp
    · intro hacc
      unfold codeAccepts at hacc
      rw [Bool.and_eq_true] at hacc
      obtain ⟨hmarker, hok⟩ := hacc
      by_cases hg : d.hasGitDir = true
      · have hsome : (createSubproject fs d.parts maxDepth
            d.hasRequirements).isSome = true := by
          rw [createSubproject_isSome]
          exact hok
        obtain ⟨s, hc⟩ := Option.isSome_iff_exists.mp hsome
        refine ⟨s, ?_, createSubproject_path _ _ _ _ _ hc⟩
        rw [heq, List.mem_append]
        exact Or.inl (List.mem_filterMap.mpr ⟨d, List.mem_filter.mpr ⟨hd, hg⟩, hc⟩)
      · have hr : d.hasRequirements = true := by
          rw [Bool.or_eq_true] at hmarker
          rcases hmarker with hg' | hr
          · exact absurd hg' hg
          · exact hr
        have hsome : (createSubproject fs d.parts maxDepth true).isSome = true := by
          rw [createSubproject_isSome]
          exact hok
        obtain ⟨s, hc⟩ := Option.isSome_iff_exists.mp hsome
        refine ⟨s, ?_, createSubproject_path _ _ _ _ _ hc⟩
        rw [heq, List.mem_append]
        refine Or.inr (List.mem_filterMap.mpr
          ⟨d, List.mem_filter.mpr ⟨hd, ?_⟩, hc⟩)
        simp only [Bool.not_eq_true] at hg
        rw [hr, hg]
        rfl

/-- Witness for C7's amended statement at a one-subproject filesystem: the
directory `r/sub` with both markers is returned. -/
theorem find_subprojects_amended_witness :
    ∃ s ∈ findSubprojects ⟨["r"], [⟨["r", "sub"], true, true⟩]⟩ 2,
      s.path = ["r", "sub"] :=
  ((find_subprojects_amended ⟨["r"], [⟨["r", "sub"], true, true⟩]⟩ 2
      (by decide)).2.2 ⟨["r", "sub"], true, true⟩ (by decide)).mpr (by decide)

end PPU
